import Mathlib

/-!
Verification of the panel-extraction core of AdenzuMangaPanelExtractor
(`src/image_processing/panel.py`), as a shallow embedding.

Images are grids of `Nat` pixel values (grayscale) or of channel triples
(color).  OpenCV primitives whose internals are external library code
(blur, Laplacian, dilation, thinning, template matching, connected
components, contour finding, rasterisation of a contour's region) are
modelled as fields of an abstract `CV` structure; everything the
repository computes itself (thresholding, saturating subtraction,
bitwise blending, cropping, bounding rectangles, polygon area, counts,
variances, the control flow) is embedded concretely.
-/

/-- A grayscale image: a list of rows of pixel values (uint8 values in the code). -/
abbrev Image := List (List Nat)

/-- A color pixel: a BGR channel triple. -/
abbrev CPixel := Nat × Nat × Nat

/-- A color image. -/
abbrev CImage := List (List CPixel)

/-- A contour as returned by `cv2.findContours`: integer pixel coordinates `(x, y)`,
always non-negative. -/
abbrev Contour := List (Nat × Nat)

/-- A morphological structuring element / template kernel. -/
abbrev Kernel := List (List Nat)

/-- Width of an image (`shape[1]`): length of the first row. -/
def width2 {α : Type} (img : List (List α)) : Nat := (img.headD []).length

/-- Number of entries of a rectangular array (`ndarray.size`). -/
def numel {α : Type} (img : List (List α)) : Nat := img.length * width2 img

/-- Pointwise unary operation on a grid. -/
def pm2 {α β : Type} (f : α → β) (img : List (List α)) : List (List β) :=
  img.map (List.map f)

/-- Pointwise binary operation on two grids (shapes intersect, as in cv2). -/
def pz2 {α β γ : Type} (f : α → β → γ) (a : List (List α)) (b : List (List β)) :
    List (List γ) :=
  List.zipWith (List.zipWith f) a b

/-- `img[y:y+h, x:x+w]`: numpy slicing with clamping at the borders. -/
def crop2 {α : Type} (img : List (List α)) (y h x w : Nat) : List (List α) :=
  ((img.drop y).take h).map (fun r => (r.drop x).take w)

/-- Grid element access with default (out-of-range reads give the default). -/
def pget {α : Type} (img : List (List α)) (i j : Nat) (d : α) : α :=
  (img.getD i []).getD j d

/-- `np.count_nonzero`. -/
def countNonZero (img : Image) : Nat :=
  (img.map (fun r => (r.filter (fun p => p ≠ 0)).length)).sum

/-- `cv2.threshold(img, t, 255, cv2.THRESH_BINARY)`: pixels strictly above `t`
become 255, the rest 0. -/
def cv2_threshold (img : Image) (t : ℤ) : Image :=
  pm2 (fun (p : Nat) => if (p : ℤ) > t then 255 else 0) img

/-- `cv2.subtract` on uint8 images: saturating subtraction (ℕ subtraction). -/
def cv2_subtract (a b : Image) : Image := pz2 (fun p q => p - q) a b

/-- `255 - img` on a uint8 image whose pixels are ≤ 255. -/
def invert255 (img : Image) : Image := pm2 (fun p => 255 - p) img

/-- Grid generated from an entry function. -/
def genMat (h w : Nat) (f : Nat → Nat → Nat) : Kernel :=
  (List.range h).map (fun i => (List.range w).map (f i))

/-- `np.ones((h, w))`. -/
def npOnes (h w : Nat) : Kernel := genMat h w (fun _ _ => 1)

/-- `np.identity n`. -/
def npIdentity (n : Nat) : Kernel := genMat n n (fun i j => if i = j then 1 else 0)

/-- `np.pad m ((top, bottom), (left, right))` with zeros; also
`cv2.copyMakeBorder` with `BORDER_CONSTANT, value = 0`. -/
def npPad (m : Kernel) (top bottom left right : Nat) : Kernel :=
  let w := width2 m
  List.replicate top (List.replicate (left + w + right) 0) ++
    m.map (fun r => List.replicate left 0 ++ r ++ List.replicate right 0) ++
    List.replicate bottom (List.replicate (left + w + right) 0)

/-- `np.flip(m, axis=1)`. -/
def npFlipH (m : Kernel) : Kernel := m.map List.reverse

/-- Minimum of a pixel-value list as an integer (Python `min`, 0 for empty). -/
def listMinZ : List Nat → ℤ
  | [] => 0
  | x :: xs => xs.foldl (fun a b => min a (b : ℤ)) (x : ℤ)

/-- Maximum of a pixel-value list as an integer (Python `max`, 0 for empty). -/
def listMaxZ : List Nat → ℤ
  | [] => 0
  | x :: xs => xs.foldl (fun a b => max a (b : ℤ)) (x : ℤ)

/-- Numerator of `np.var l` over a common denominator: `n·Σx² - (Σx)²`. -/
def varNum (l : List Nat) : ℤ :=
  (l.length : ℤ) * ((l.map (fun x => ((x : ℤ)) ^ 2)).sum) -
    ((l.map (fun x => (x : ℤ))).sum) ^ 2

/-- Denominator of `np.var l`: `n²`. -/
def varDen (l : List Nat) : ℤ := (l.length : ℤ) ^ 2

/-- `np.var`: the mean of squared deviations
`Σx²/n - (Σx/n)² = (n·Σx² - (Σx)²) / n²`, computed exactly over ℚ. -/
def npVar (l : List Nat) : ℚ := (varNum l : ℚ) / (varDen l : ℚ)

/-- Twice the signed area of a closed polygon (shoelace formula over the
cyclically adjacent vertex pairs). -/
def shoelace (c : Contour) : ℤ :=
  ((c.zip (c.rotate 1)).map
    (fun pq => (pq.1.1 : ℤ) * (pq.2.2 : ℤ) - (pq.2.1 : ℤ) * (pq.1.2 : ℤ))).sum

/-- `cv2.contourArea`: absolute polygon area by Green's formula (a multiple of ½). -/
def contourArea (c : Contour) : ℚ := ((shoelace c).natAbs : ℚ) / 2

/-- `cv2.boundingRect`: minimal upright rectangle `(x, y, w, h)` containing the
contour's points, with `w = maxx - minx + 1` and `h = maxy - miny + 1`. -/
def boundingRect : Contour → Nat × Nat × Nat × Nat
  | [] => (0, 0, 0, 0)
  | p :: ps =>
    let x0 := ps.foldl (fun a q => min a q.1) p.1
    let y0 := ps.foldl (fun a q => min a q.2) p.2
    let x1 := ps.foldl (fun a q => max a q.1) p.1
    let y1 := ps.foldl (fun a q => max a q.2) p.2
    (x0, y0, x1 - x0 + 1, y1 - y0 + 1)

/-- Abstract interface for the external OpenCV primitives the pipeline calls.
Their internals are library code (often floating point), so they are opaque
parameters of the development; every theorem below holds for all of them. -/
structure CV where
  /-- `cv2.cvtColor(·, cv2.COLOR_BGR2GRAY)` (rounded weighted channel sum). -/
  cvtGray : CImage → Image
  /-- `cv2.GaussianBlur(·, (3, 3), 0)`. -/
  gaussianBlur3 : Image → Image
  /-- `cv2.Laplacian(·, -1)`. -/
  laplacian : Image → Image
  /-- `cv2.dilate(img, kernel, iterations=n)`. -/
  dilate : Image → Kernel → Nat → Image
  /-- `cv2.ximgproc.thinning`. -/
  thinning : Image → Image
  /-- `cv2.matchTemplate(·, ·, TM_CCOEFF_NORMED)` followed by the float
  threshold at 0.9 and the `np.where(· == 1, 255, 0)` conversion of
  `get_dots` (floating point internals, hence abstract). -/
  matchTemplateThresh : Image → Kernel → Image
  /-- `cv2.findContours(·, RETR_EXTERNAL, CHAIN_APPROX_SIMPLE)`: the list of
  external contours. -/
  findContours : Image → List Contour
  /-- `cv2.connectedComponentsWithStats`: the stats rows `(x, y, w, h, area)`
  (index 0 is the background component) and the label image. -/
  connectedComponentsWithStats : Image → List (Nat × Nat × Nat × Nat × Nat) × Image
  /-- Modelled from the spec: `apply_adaptive_threshold` from
  `image_processing/image.py` (not under src/), "subtract an adaptive local
  threshold" — an opaque local-thresholding image transform. -/
  applyAdaptiveThreshold : Image → Image
  /-- Modelled from the spec: `is_contour_rectangular` from
  `image_processing/image.py` (not under src/), the "polygon approximation
  test: 4 corners, convex" — an opaque predicate on contours. -/
  isContourRectangular : Contour → Bool
  /-- The filled region rasterised by `cv2.drawContours(·, [c], -1, white, -1)`:
  whether pixel `(row, col)` lies in the contour's interior or boundary. -/
  contourRegion : Contour → Nat → Nat → Bool

/-- `OutputMode` from panel.py. -/
inductive OutputMode
  | bounding
  | masked
deriving DecidableEq

/-- `MergeMode` from panel.py. -/
inductive MergeMode
  | none
  | vertical
  | horizontal
deriving DecidableEq

/-- The four border lines inspected by `get_background_intensity_range`:
`[img[-1, :], img[0, :], img[:, 0], img[:, -1]]` in the source's order. -/
def edgesOf (g : Image) : List (List Nat) :=
  [g.getLastD [], g.headD [], g.map (fun r => r.headD 0), g.map (fun r => r.getLastD 0)]

/-- Comparator used to sort the edges by `np.var` (Python `sorted` is stable):
the comparison `np.var a ≤ np.var b` of the two exact rational variances,
written integrally by cross-multiplying the denominators. -/
def varLeB (a b : List Nat) : Bool := decide (varNum a * varDen b ≤ varNum b * varDen a)

/-- Stable insertion of an element into a list by a comparator. -/
def insertSorted {α : Type} (le : α → α → Bool) (x : α) : List α → List α
  | [] => [x]
  | y :: ys => if le x y then x :: y :: ys else y :: insertSorted le x ys

/-- Stable insertion sort by a comparator (models Python's stable `sorted`). -/
def sortByB {α : Type} (le : α → α → Bool) : List α → List α
  | [] => []
  | x :: xs => insertSorted le x (sortByB le xs)

/-- `get_background_intensity_range` (panel.py lines 29-41): minimum and maximum
intensity of the least-varied border line, the minimum lowered by `min_range`
and clamped at 0. -/
def get_background_intensity_range (g : Image) (min_range : ℤ) : ℤ × ℤ :=
  let sorted_edges := sortByB varLeB (edgesOf g)
  let least_varied_edge := sorted_edges.headD []
  let max_intensity := listMaxZ least_varied_edge
  let min_intensity := max (min (listMinZ least_varied_edge) (max_intensity - min_range)) 0
  (min_intensity, max_intensity)

/-- The remainder of `generate_background_mask` after the binarisation
(panel.py lines 53-80): connected components ranked by area descending,
iterated until the area drops below `size / 1024`, accepted into the mask when
wider than 95% of the image width, taller than 95% of the image height, or
rectangular; then dilated twice with a 3×3 kernel. -/
def generate_background_mask_core (cv : CV) (thresh : Image) : Image :=
  let stl := cv.connectedComponentsWithStats thresh
  let stats := stl.1
  let labels := stl.2
  let halting_area_size := numel thresh / 1024
  let mask_height := thresh.length
  let mask_width := width2 thresh
  let rows := stats.drop 1
  let indexed := (List.range rows.length).map (fun i => (i + 1, rows.getD i (0, 0, 0, 0, 0)))
  let ranked := sortByB (fun a b => decide (b.2.2.2.2.2 ≤ a.2.2.2.2.2)) indexed
  let kept := ranked.takeWhile (fun p => decide (halting_area_size ≤ p.2.2.2.2.2))
  -- `w > mask_width * (1 - 0.05)` is exactly `20 * w > 19 * mask_width`
  let accepted := kept.filter (fun p =>
    decide (20 * p.2.2.2.1 > 19 * mask_width) ||
    decide (20 * p.2.2.2.2.1 > 19 * mask_height) ||
    cv.isContourRectangular
      ((cv.findContours (pm2 (fun l => if l = p.1 then 1 else 0) labels)).headD []))
  let acceptedIds := accepted.map (fun p => p.1)
  let mask := pm2 (fun l => if acceptedIds.contains l then 255 else 0) labels
  cv.dilate mask (npOnes 3 3) 2

/-- `generate_background_mask` (panel.py lines 44-80): binarise at
`max(min_intensity, 240)` where `min_intensity` comes from
`get_background_intensity_range` with `min_range = 25`, then keep the large
background components. -/
def generate_background_mask (cv : CV) (g : Image) : Image :=
  let LESS_WHITE := max (get_background_intensity_range g 25).1 240
  generate_background_mask_core cv (cv2_threshold g LESS_WHITE)

/-- Channel-wise `cv2.bitwise_and` on color pixels. -/
def bandC (a b : CPixel) : CPixel :=
  (Nat.land a.1 b.1, Nat.land a.2.1 b.2.1, Nat.land a.2.2 b.2.2)

/-- Channel-wise `cv2.bitwise_or` on color pixels. -/
def borC (a b : CPixel) : CPixel :=
  (Nat.lor a.1 b.1, Nat.lor a.2.1 b.2.1, Nat.lor a.2.2 b.2.2)

/-- Channel-wise `cv2.bitwise_not` on uint8 color pixels (`255 - ·`). -/
def bnotC (a : CPixel) : CPixel := (255 - a.1, 255 - a.2.1, 255 - a.2.2)

/-- `np.zeros_like(image)` followed by
`cv2.drawContours(mask, [contour], -1, (255, 255, 255), -1)`: a mask of the
image's shape, white on the contour's filled region, black elsewhere. -/
def draw_contour_mask (cv : CV) (image : CImage) (contour : Contour) : CImage :=
  (List.range image.length).map (fun r =>
    (List.range ((image.getD r []).length)).map (fun c =>
      if cv.contourRegion contour r c then (255, 255, 255) else (0, 0, 0)))

/-- The masked-mode panel of one contour (panel.py lines 113-117): black out
everything outside the contour, crop to the bounding box, and blend the fill
color into the exterior. -/
def extract_masked_panel (cv : CV) (image : CImage) (contour : Contour)
    (fill_in_color : CPixel) (x y w h : Nat) : CImage :=
  let mask := draw_contour_mask cv image contour
  let masked_image := pz2 bandC image mask
  let fitted_panel := crop2 masked_image y h x w
  pz2 (fun mp fp => borC (bandC (bnotC mp) fill_in_color) fp)
    (crop2 mask y h x w) fitted_panel

/-- `extract_panels` (panel.py lines 83-123): one panel per contour, skipping
page-sized bounding boxes when `accept_page_as_panel` is off. -/
def extract_panels (cv : CV) (image : CImage) (panel_contours : List Contour)
    (accept_page_as_panel : Bool) (mode : OutputMode) (fill_in_color : CPixel) :
    List CImage :=
  match panel_contours with
  | [] => []
  | contour :: rest =>
    let height := image.length
    let width := width2 image
    let b := boundingRect contour
    let x := b.1
    let y := b.2.1
    let w := b.2.2.1
    let h := b.2.2.2
    let returned_rest := extract_panels cv image rest accept_page_as_panel mode fill_in_color
    -- `w >= width * 0.99` is exactly `100 * w ≥ 99 * width` (and likewise for h)
    if accept_page_as_panel = false ∧
        ((100 * w ≥ 99 * width) ∨ (100 * h ≥ 99 * height)) then
      returned_rest
    else
      (match mode with
        | OutputMode.masked => extract_masked_panel cv image contour fill_in_color x y w h
        | OutputMode.bounding => crop2 image y h x w) :: returned_rest

/-- `preprocess_image` (panel.py lines 126-132). -/
def preprocess_image (cv : CV) (g : Image) : Image :=
  cv.laplacian (cv.gaussianBlur3 g)

/-- `preprocess_image_with_dilation` (panel.py lines 135-143). -/
def preprocess_image_with_dilation (cv : CV) (g : Image) : Image :=
  invert255 (cv.dilate (cv.laplacian (cv.gaussianBlur3 g)) (npOnes 5 5) 1)

/-- `is_contour_sufficiently_big` (panel.py lines 244-249): keep a contour
whose area strictly exceeds `image_area // 32`. -/
def is_contour_sufficiently_big (contour : Contour) (image_height image_width : Nat) : Bool :=
  let image_area := image_width * image_height
  let area_threshold := image_area / 32
  -- cv2.contourArea contour = |shoelace| / 2, so `area > area_threshold`
  -- is exactly `|shoelace| > 2 * area_threshold`
  decide (2 * area_threshold < (shoelace contour).natAbs)

/-- `get_dots` inside `joint_panel_split_extraction` (panel.py lines 220-227):
template-match a 3×3 stroke-end kernel, then pad the match map back to the
image size with `cv2.copyMakeBorder(..., BORDER_CONSTANT, value=0)`. -/
def get_dots (cv : CV) (g : Image) (kernel : Kernel) : Image :=
  let temp := cv.matchTemplateThresh g kernel
  let pad_height := (kernel.length - 1) / 2
  let pad_width := (width2 kernel - 1) / 2
  npPad temp pad_height (kernel.length - pad_height - 1) pad_width
    (width2 kernel - pad_width - 1)

/-- `joint_panel_split_extraction` (panel.py lines 146-241).  Thins the mask,
marks directional stroke ends with eight 3×3 templates, extends a line from
each with a direction-specific elongated kernel, then re-dilates by a size
derived from the before/after pixel counts.  Python raises
`ZeroDivisionError` when the post-extension count is zero, modelled as
`none`. -/
def joint_panel_split_extraction (cv : CV) (grayscale_image background_mask : Image) :
    Option Image :=
  let pixels_before := countNonZero background_mask
  let mask1 := cv.thinning background_mask
  let up_kernel : Kernel := [[0, 0, 0], [0, 1, 0], [0, 1, 0]]
  let down_kernel : Kernel := [[0, 1, 0], [0, 1, 0], [0, 0, 0]]
  let left_kernel : Kernel := [[0, 0, 0], [0, 1, 1], [0, 0, 0]]
  let right_kernel : Kernel := [[0, 0, 0], [1, 1, 0], [0, 0, 0]]
  let down_right_diagonal_kernel : Kernel := [[1, 0, 0], [0, 1, 0], [0, 0, 0]]
  let down_left_diagonal_kernel : Kernel := [[0, 0, 1], [0, 1, 0], [0, 0, 0]]
  let up_left_diagonal_kernel : Kernel := [[0, 0, 0], [0, 1, 0], [0, 0, 1]]
  let up_right_diagonal_kernel : Kernel := [[0, 0, 0], [0, 1, 0], [1, 0, 0]]
  let image_height := grayscale_image.length
  let image_width := width2 grayscale_image
  -- PAGE_TO_JOINT_OBJECT_RATIO = 3, and both sizes are then forced odd
  let height_based_size0 := image_height / 3
  let width_based_size0 := (2 * image_width) / 3
  let height_based_size := height_based_size0 + height_based_size0 % 2 + 1
  let width_based_size := width_based_size0 + width_based_size0 % 2 + 1
  -- kernel[s//2:, s//2] = 1 on np.zeros((s, s))
  let up_dilation_kernel := genMat height_based_size height_based_size
    (fun i j => if height_based_size / 2 ≤ i ∧ j = height_based_size / 2 then 1 else 0)
  -- kernel[:s//2+1, s//2] = 1
  let down_dilation_kernel := genMat height_based_size height_based_size
    (fun i j => if i ≤ height_based_size / 2 ∧ j = height_based_size / 2 then 1 else 0)
  -- kernel[s//2, s//2:] = 1
  let left_dilation_kernel := genMat width_based_size width_based_size
    (fun i j => if i = width_based_size / 2 ∧ width_based_size / 2 ≤ j then 1 else 0)
  -- kernel[s//2, :s//2+1] = 1
  let right_dilation_kernel := genMat width_based_size width_based_size
    (fun i j => if i = width_based_size / 2 ∧ j ≤ width_based_size / 2 then 1 else 0)
  let min_based_size := min width_based_size height_based_size
  let down_right_dilation_kernel :=
    npPad (npIdentity (min_based_size / 2 + 1)) 0 (min_based_size / 2) 0 (min_based_size / 2)
  let up_left_dilation_kernel :=
    npPad (npIdentity (min_based_size / 2 + 1)) (min_based_size / 2) 0 0 (min_based_size / 2)
  let up_right_dilation_kernel :=
    npPad (npFlipH (npIdentity (min_based_size / 2 + 1))) (min_based_size / 2) 0 0 (min_based_size / 2)
  let down_left_dilation_kernel :=
    npPad (npFlipH (npIdentity (min_based_size / 2 + 1))) 0 (min_based_size / 2) (min_based_size / 2) 0
  let match_kernels := [up_kernel, down_kernel, left_kernel, right_kernel,
    down_right_diagonal_kernel, down_left_diagonal_kernel,
    up_left_diagonal_kernel, up_right_diagonal_kernel]
  let dilation_kernels := [up_dilation_kernel, down_dilation_kernel,
    left_dilation_kernel, right_dilation_kernel, down_right_dilation_kernel,
    down_left_dilation_kernel, up_left_dilation_kernel, up_right_dilation_kernel]
  let mask2 := (match_kernels.zip dilation_kernels).foldl
    (fun m p =>
      let dots := get_dots cv m p.1
      let lines := cv.dilate dots p.2 1
      pz2 Nat.lor m lines)
    mask1
  let pixels_now := countNonZero mask2
  if pixels_now = 0 then none
  else
    let dilation_size0 := pixels_before / (4 * pixels_now)
    let dilation_size := dilation_size0 + dilation_size0 % 2 + 1
    let mask3 := cv.dilate mask2 (npOnes dilation_size dilation_size) 1
    some (invert255 mask3)

/-- The contours retained by `threshold_extraction` (panel.py lines 260-267). -/
def te_contours (cv : CV) (image : CImage) (grayscale_image : Image) : List Contour :=
  let p1 := cv.gaussianBlur3 grayscale_image
  let p2 := cv.laplacian p1
  let thresh := cv2_threshold p2 8
  let p3 := cv.applyAdaptiveThreshold p2
  let p4 := cv2_subtract p3 thresh
  let p5 := cv.dilate p4 (npOnes 3 3) 2
  (cv.findContours p5).filter
    (fun c => is_contour_sufficiently_big c image.length (width2 image))

/-- `threshold_extraction` (panel.py lines 252-270): the fallback detector;
extracts its contours with `accept_page_as_panel = False`. -/
def threshold_extraction (cv : CV) (image : CImage) (grayscale_image : Image)
    (mode : OutputMode) : List CImage :=
  extract_panels cv image (te_contours cv image grayscale_image) false mode (0, 0, 0)

/-- `get_page_without_background` (panel.py lines 273-287): run the joint-panel
splitter only when the mask covers strictly less than 30% of the page and the
caller asked for splitting, otherwise subtract the mask.  Python raises
`ZeroDivisionError` on a size-0 mask, modelled as `none`. -/
def get_page_without_background (cv : CV) (grayscale_image background_mask : Image)
    (split_joint_panels : Bool) : Option Image :=
  if numel background_mask = 0 then none
  else
    let mask_area := countNonZero background_mask
    -- `0.3 > mask_area / size` is exactly `10 * mask_area < 3 * size` (size > 0)
    if (10 * mask_area < 3 * numel background_mask) ∧ split_joint_panels then
      joint_panel_split_extraction cv grayscale_image background_mask
    else
      some (cv2_subtract grayscale_image background_mask)

/-- `get_fallback_panels` (panel.py lines 290-310): when fallback is on and
fewer than 2 panels were found, run `threshold_extraction` and keep its result
exactly when it found strictly more panels. -/
def get_fallback_panels (cv : CV) (image : CImage) (grayscale_image : Image)
    (fallback : Bool) (panels : List CImage) (mode : OutputMode) : List CImage :=
  if fallback ∧ panels.length < 2 then
    let tmp := threshold_extraction cv image grayscale_image mode
    if tmp.length > panels.length then tmp else panels
  else panels

/-- Modelled from the spec: `sort_panels_by_column_then_row` from
`manga_panel_processor` (not under src/).  Spec 4.5: order boxes by rows
top-to-bottom, within a row left-to-right (or right-to-left when `rtl`);
modelled as a stable sort by the key `(y, x)` with `x` negated for RTL.  The
pipeline facts proved below rely only on it permuting its input. -/
def sort_panels_by_column_then_row {α : Type} (key : α → ℤ × ℤ) (items : List α)
    (rtl_order : Bool) : List α :=
  let k := fun a => ((key a).1, if rtl_order then -(key a).2 else (key a).2)
  sortByB (fun a b =>
    decide ((k a).1 < (k b).1) || (decide ((k a).1 = (k b).1) && decide ((k a).2 ≤ (k b).2)))
    items

/-- Sort key of a contour: top then left of its bounding rectangle. -/
def contourKey (c : Contour) : ℤ × ℤ :=
  (((boundingRect c).2.1 : ℤ), ((boundingRect c).1 : ℤ))

/-- Chunk a list into maximal runs of pairwise-adjacent neighbours; every
produced group is nonempty and their concatenation is the input list. -/
def chunkByAdj {α : Type} (adj : α → α → Bool) : List α → List (List α)
  | [] => []
  | x :: xs =>
    match chunkByAdj adj xs with
    | [] => [[x]]
    | [] :: gs => [x] :: [] :: gs
    | (y :: g) :: gs => if adj x y then (x :: y :: g) :: gs else [x] :: (y :: g) :: gs

/-- Whether two contours' bounding rectangles overlap vertically. -/
def yOverlapB (c1 c2 : Contour) : Bool :=
  let b1 := boundingRect c1
  let b2 := boundingRect c2
  decide (b1.2.1 < b2.2.1 + b2.2.2.2 ∧ b2.2.1 < b1.2.1 + b1.2.2.2)

/-- Whether two contours' bounding rectangles overlap horizontally. -/
def xOverlapB (c1 c2 : Contour) : Bool :=
  let b1 := boundingRect c1
  let b2 := boundingRect c2
  decide (b1.1 < b2.1 + b2.2.2.1 ∧ b2.1 < b1.1 + b1.2.2.1)

/-- Modelled from the spec: `group_contours_horizontally` from
`image_processing/image.py` (not under src/).  Spec 4.8: group adjacent
contours along the merge axis by overlap along the perpendicular axis; the
groups jointly partition the input. -/
def group_contours_horizontally (contours : List Contour) : List (List Contour) :=
  chunkByAdj yOverlapB contours

/-- Modelled from the spec: `group_contours_vertically` from
`image_processing/image.py` (not under src/). -/
def group_contours_vertically (contours : List Contour) : List (List Contour) :=
  chunkByAdj xOverlapB contours

/-- Maximum of a list of naturals with default 0. -/
def natMaxL (l : List Nat) : Nat := l.foldl max 0

/-- Modelled from the spec: `adaptive_vconcat` from
`image_processing/image.py` (not under src/).  Spec 4.8/8: concatenate panels
along the vertical axis, adapting differing widths by padding to the widest
(height of the result = sum of heights). -/
def adaptive_vconcat (panels : List CImage) : CImage :=
  let w := natMaxL (panels.map width2)
  (panels.map (fun p => p.map (fun r => r ++ List.replicate (w - r.length) (0, 0, 0)))).flatten

/-- Modelled from the spec: `adaptive_hconcat` from
`image_processing/image.py` (not under src/).  Spec 4.8/8: concatenate panels
along the horizontal axis, padding to the tallest (width of the result = sum
of widths). -/
def adaptive_hconcat (panels : List CImage) : CImage :=
  let h := natMaxL (panels.map List.length)
  (List.range h).map (fun i => (panels.map (fun p => p.getD i (List.replicate (width2 p) (0, 0, 0)))).flatten)

/-- The page produced before contour extraction in `generate_panel_blocks`
(panel.py lines 332-335): grayscale conversion, edge preprocessing, background
mask, background removal. -/
def pipeline_page (cv : CV) (image : CImage) (split_joint_panels : Bool) : Option Image :=
  let grayscale_image := cv.cvtGray image
  let processed_image := preprocess_image_with_dilation cv grayscale_image
  let background_mask := generate_background_mask cv processed_image
  get_page_without_background cv grayscale_image background_mask split_joint_panels

/-- The contours of the page that pass the area filter (panel.py lines 336-337). -/
def filtered_contours (cv : CV) (image : CImage) (page : Image) : List Contour :=
  (cv.findContours page).filter
    (fun c => is_contour_sufficiently_big c image.length (width2 image))

/-- The area-filtered contours in reading order (panel.py lines 341-343; the
sort runs only on a nonempty list, as in the source). -/
def sorted_filtered (cv : CV) (image : CImage) (page : Image) (rtl_order : Bool) :
    List Contour :=
  let contours := filtered_contours cv image page
  if contours.isEmpty then contours
  else sort_panels_by_column_then_row contourKey contours rtl_order

/-- The `get_panels` closure of `generate_panel_blocks` (panel.py lines 345-348). -/
def gpb_get_panels (cv : CV) (image : CImage) (grayscale_image : Image)
    (fallback : Bool) (mode : OutputMode) (contours : List Contour) : List CImage :=
  get_fallback_panels cv image grayscale_image fallback
    (extract_panels cv image contours true mode (0, 0, 0)) mode

/-- `generate_panel_blocks` (panel.py lines 313-362): the traditional pipeline.
`none` models a Python exception escaping from the splitter. -/
def generate_panel_blocks (cv : CV) (image : CImage) (split_joint_panels fallback : Bool)
    (mode : OutputMode) (merge : MergeMode) (rtl_order : Bool) : Option (List CImage) :=
  match pipeline_page cv image split_joint_panels with
  | Option.none => Option.none
  | Option.some page =>
    let grayscale_image := cv.cvtGray image
    let contours := sorted_filtered cv image page rtl_order
    Option.some (match merge with
      | MergeMode.none => gpb_get_panels cv image grayscale_image fallback mode contours
      | MergeMode.horizontal =>
        (group_contours_horizontally contours).map
          (fun grp => adaptive_hconcat (gpb_get_panels cv image grayscale_image fallback mode grp))
      | MergeMode.vertical =>
        (group_contours_vertically contours).map
          (fun grp => adaptive_vconcat (gpb_get_panels cv image grayscale_image fallback mode grp)))

/-- The bounding box the AI adapter builds from one model detection
(panel.py lines 384-387): `(x1, y1, x2 - x1, y2 - y1)`, with no clamping. -/
def aiBox (d : ℤ × ℤ × ℤ × ℤ) : ℤ × ℤ × ℤ × ℤ :=
  (d.1, d.2.1, d.2.2.1 - d.1, d.2.2.2 - d.2.1)

/-- `image[y:y+h, x:x+w]` for the integer boxes of the AI path (faithful for
non-negative in-bounds boxes, the only ones evaluated below). -/
def cropZ (image : CImage) (y h x w : ℤ) : CImage :=
  crop2 image y.toNat h.toNat x.toNat w.toNat

/-- Modelled from the spec (grouping): `group_bounding_boxes_horizontally` /
`group_bounding_boxes_vertically` from `image_processing/image.py` (not under
src/), by the same perpendicular-overlap criterion on boxes. -/
def yOverlapBoxB (b1 b2 : ℤ × ℤ × ℤ × ℤ) : Bool :=
  decide (b1.2.1 < b2.2.1 + b2.2.2.2 ∧ b2.2.1 < b1.2.1 + b1.2.2.2)

/-- Horizontal-overlap criterion on integer boxes. -/
def xOverlapBoxB (b1 b2 : ℤ × ℤ × ℤ × ℤ) : Bool :=
  decide (b1.1 < b2.1 + b2.2.2.1 ∧ b2.1 < b1.1 + b1.2.2.1)

/-- `generate_panel_blocks_by_ai` (panel.py lines 365-413), with the model's
detections — already converted to integer `(x1, y1, x2, y2)` — passed in as
data, the model itself being an external black box. -/
def generate_panel_blocks_by_ai (image : CImage) (detections : List (ℤ × ℤ × ℤ × ℤ))
    (merge : MergeMode) (rtl_order : Bool) : List CImage :=
  let bounding_boxes := detections.map aiBox
  let bbs := if bounding_boxes.isEmpty then bounding_boxes
    else sort_panels_by_column_then_row (fun b => (b.2.1, b.1)) bounding_boxes rtl_order
  let get_panels := fun (bs : List (ℤ × ℤ × ℤ × ℤ)) =>
    bs.map (fun b => cropZ image b.2.1 b.2.2.2 b.1 b.2.2.1)
  match merge with
  | MergeMode.none => get_panels bbs
  | MergeMode.horizontal =>
    (chunkByAdj yOverlapBoxB bbs).map (fun grp => adaptive_hconcat (get_panels grp))
  | MergeMode.vertical =>
    (chunkByAdj xOverlapBoxB bbs).map (fun grp => adaptive_vconcat (get_panels grp))

/-! Concrete data used by witnesses and counterexamples. -/

/-- A 4×4 axis-aligned square contour at the left of an 8-pixel-wide page. -/
def sqA : Contour := [(0, 0), (3, 0), (3, 3), (0, 3)]

/-- A 4×4 axis-aligned square contour at the right of an 8-pixel-wide page. -/
def sqB : Contour := [(4, 0), (7, 0), (7, 3), (4, 3)]

/-- A uniform 8×8 color test image. -/
def img8 : CImage := List.replicate 8 (List.replicate 8 (100, 100, 100))

/-- A uniform 4×4 color test image. -/
def img4 : CImage := List.replicate 4 (List.replicate 4 (50, 50, 50))

/-- A uniform 2×2 grayscale test image of intensity 250. -/
def img250 : Image := [[250, 250], [250, 250]]

/-- A concrete instantiation of the OpenCV interface used to evaluate the
pipeline on the test data: identity smoothing/dilation, no template matches,
no connected components, two square contours. -/
def cvW1 : CV := {
  cvtGray := fun img => img.map (List.map (fun _ => 0)),
  gaussianBlur3 := id,
  laplacian := id,
  dilate := fun i _ _ => i,
  thinning := id,
  matchTemplateThresh := fun m _ => pm2 (fun _ => 0) m,
  findContours := fun _ => [sqA, sqB],
  connectedComponentsWithStats := fun img => ([], pm2 (fun _ => 0) img),
  applyAdaptiveThreshold := id,
  isContourRectangular := fun _ => false,
  contourRegion := fun _ r c => decide (r = 0 ∧ c = 0)
}

/-- Like `cvW1` but every contour query returns two identical page-sized
squares (two overlapping panels, as arise from concave regions). -/
def cvW7 : CV := { cvW1 with findContours := fun _ => [sqA, sqA] }

/-- Like `cvW1` but no contours are ever found. -/
def cvW8 : CV := { cvW1 with findContours := fun _ => [] }

/-! Generic list lemmas used by the claim proofs. -/

theorem getD_take {α : Type} (l : List α) (n j : Nat) (d : α) (h : j < n) :
    (l.take n).getD j d = l.getD j d := by
  induction l generalizing n j with
  | nil => simp
  | cons a l ih =>
    cases n with
    | zero => omega
    | succ n =>
      cases j with
      | zero => simp
      | succ j => simpa using ih n j (by omega)

theorem getD_drop {α : Type} (l : List α) (n j : Nat) (d : α) :
    (l.drop n).getD j d = l.getD (n + j) d := by
  induction l generalizing n with
  | nil => simp
  | cons a l ih =>
    cases n with
    | zero => simp
    | succ n =>
      have : n + 1 + j = (n + j) + 1 := by omega
      simp [this, ih]

theorem getD_dropTake {α : Type} (r : List α) (x w j : Nat) (d : α) (hj : j < w) :
    ((r.drop x).take w).getD j d = r.getD (x + j) d := by
  rw [getD_take _ _ _ _ hj, getD_drop]

theorem getD_map_pres {α β : Type} (f : α → β) (da : α) (db : β) (hf : f da = db)
    (L : List α) (i : Nat) : (L.map f).getD i db = f (L.getD i da) := by
  induction L generalizing i with
  | nil => simpa using hf.symm
  | cons a L ih =>
    cases i with
    | zero => simp
    | succ i => simpa using ih i

theorem getD_zipWith {α β γ : Type} (f : α → β → γ) (a : List α) (b : List β)
    (i : Nat) (da : α) (db : β) (dc : γ) (ha : i < a.length) (hb : i < b.length) :
    (List.zipWith f a b).getD i dc = f (a.getD i da) (b.getD i db) := by
  induction a generalizing b i with
  | nil => simp at ha
  | cons x a ih =>
    cases b with
    | nil => simp at hb
    | cons y b =>
      cases i with
      | zero => simp
      | succ i =>
        simp only [List.zipWith_cons_cons, List.getD_cons_succ]
        exact ih b i (by simpa using ha) (by simpa using hb)

theorem crop2_getD_row {α : Type} (img : List (List α)) (y h x w i : Nat) (hi : i < h) :
    (crop2 img y h x w).getD i [] = ((img.getD (y + i) []).drop x).take w := by
  unfold crop2
  rw [getD_map_pres (fun r => (r.drop x).take w) [] [] (by simp), getD_take _ _ _ _ hi,
    getD_drop]

theorem insertSorted_perm {α : Type} (le : α → α → Bool) (x : α) (l : List α) :
    (insertSorted le x l).Perm (x :: l) := by
  induction l with
  | nil => exact List.Perm.refl _
  | cons y ys ih =>
    unfold insertSorted
    split
    · exact List.Perm.refl _
    · exact (ih.cons y).trans (List.Perm.swap x y ys)

theorem sortByB_perm {α : Type} (le : α → α → Bool) (l : List α) :
    (sortByB le l).Perm l := by
  induction l with
  | nil => exact List.Perm.refl _
  | cons x xs ih => exact (insertSorted_perm le x (sortByB le xs)).trans (ih.cons x)

theorem sortByB_length {α : Type} (le : α → α → Bool) (l : List α) :
    (sortByB le l).length = l.length :=
  (sortByB_perm le l).length_eq

theorem sortByB_mem {α : Type} (le : α → α → Bool) (l : List α) (a : α)
    (h : a ∈ sortByB le l) : a ∈ l :=
  (sortByB_perm le l).mem_iff.mp h

theorem chunkByAdj_flatten {α : Type} (adj : α → α → Bool) (l : List α) :
    (chunkByAdj adj l).flatten = l := by
  induction l with
  | nil => rfl
  | cons x xs ih =>
    rcases hc : chunkByAdj adj xs with _ | ⟨g, gs⟩
    · rw [hc] at ih
      simp only [List.flatten_nil] at ih
      simp [chunkByAdj, hc, ← ih]
    · rw [hc] at ih
      cases g with
      | nil =>
        simp only [chunkByAdj, hc]
        simpa using ih
      | cons y g' =>
        simp only [chunkByAdj, hc]
        split <;> simpa using ih

theorem chunkByAdj_length_le {α : Type} (adj : α → α → Bool) (l : List α) :
    (chunkByAdj adj l).length ≤ l.length := by
  induction l with
  | nil => simp [chunkByAdj]
  | cons x xs ih =>
    rcases hc : chunkByAdj adj xs with _ | ⟨g, gs⟩
    · simp [chunkByAdj, hc]
    · rw [hc] at ih
      cases g with
      | nil =>
        simp only [chunkByAdj, hc]
        simp at ih ⊢
        omega
      | cons y g' =>
        simp only [chunkByAdj, hc]
        simp at ih ⊢
        split <;> simp <;> omega

/-! Bitwise facts on uint8 channel values. -/

set_option maxRecDepth 4000 in
theorem land255_of_le (x : Nat) (h : x ≤ 255) : Nat.land x 255 = x := by
  have hall : ∀ y : Fin 256, Nat.land y.1 255 = y.1 := by decide
  exact hall ⟨x, by omega⟩

theorem land255_left (x : Nat) (h : x ≤ 255) : Nat.land 255 x = x :=
  (Nat.and_comm 255 x).trans (land255_of_le x h)

theorem land_zero_right (x : Nat) : Nat.land x 0 = 0 := Nat.and_zero x

theorem land_zero_left (x : Nat) : Nat.land 0 x = 0 := Nat.zero_and x

theorem lor_zero_right (x : Nat) : Nat.lor x 0 = x := Nat.or_zero x

theorem lor_zero_left (x : Nat) : Nat.lor 0 x = x := Nat.zero_or x

/-- C1: for every color image and grayscale image, with fallback enabled and a
primary result of fewer than 2 panels the threshold extractor's result
replaces the primary's exactly when it has strictly more panels; in every
other case (fallback off, 2 or more primary panels, or no improvement) the
primary list is returned unchanged. -/
theorem fallback_replacement_policy (cv : CV) (image : CImage) (g : Image)
    (panels : List CImage) (mode : OutputMode) :
    (∀ fb : Bool, fb = true → panels.length < 2 →
      get_fallback_panels cv image g fb panels mode =
        if (threshold_extraction cv image g mode).length > panels.length
        then threshold_extraction cv image g mode else panels)
  ∧ (∀ fb : Bool,
      (fb = false ∨ 2 ≤ panels.length ∨
        (threshold_extraction cv image g mode).length ≤ panels.length) →
      get_fallback_panels cv image g fb panels mode = panels) := by
  constructor
  · intro fb hfb hlt
    simp [get_fallback_panels, hfb, hlt]
  · intro fb h
    rcases h with h | h | h
    · simp [get_fallback_panels, h]
    · simp [get_fallback_panels, Nat.not_lt.mpr h]
    · unfold get_fallback_panels
      split
      · rw [if_neg (by omega)]
      · rfl

/-- Witness for C1 at concrete data: with fallback on and an empty primary
result, the 2-panel threshold extraction replaces it. -/
theorem fallback_replacement_policy_witness :
    get_fallback_panels cvW1 img8 (cvW1.cvtGray img8) true [] OutputMode.bounding =
      if (threshold_extraction cvW1 img8 (cvW1.cvtGray img8) OutputMode.bounding).length >
          ([] : List CImage).length
      then threshold_extraction cvW1 img8 (cvW1.cvtGray img8) OutputMode.bounding
      else [] :=
  (fallback_replacement_policy cvW1 img8 (cvW1.cvtGray img8) [] OutputMode.bounding).1
    true rfl (by decide)

/-- C3: a contour is retained as a panel candidate iff its area strictly
exceeds `(W * H) / 32` (integer division, as in the code); a contour whose
area equals the threshold exactly is discarded. -/
theorem area_filter_strict (c : Contour) (H W : Nat) :
    (is_contour_sufficiently_big c H W = true ↔
      contourArea c > (((W * H) / 32 : ℕ) : ℚ))
  ∧ (contourArea c = (((W * H) / 32 : ℕ) : ℚ) → is_contour_sufficiently_big c H W = false) := by
  have key : is_contour_sufficiently_big c H W = true ↔
      contourArea c > (((W * H) / 32 : ℕ) : ℚ) := by
    simp only [is_contour_sufficiently_big, decide_eq_true_eq]
    rw [contourArea, gt_iff_lt, lt_div_iff₀ (by norm_num : (0:ℚ) < 2)]
    constructor
    · intro h
      have h2 : (W * H / 32 : ℕ) * 2 < ((shoelace c).natAbs : ℕ) := by omega
      exact_mod_cast h2
    · intro h
      have h2 : ((W * H / 32 : ℕ) : ℚ) * 2 < ((shoelace c).natAbs : ℚ) := h
      have h3 : (W * H / 32 : ℕ) * 2 < ((shoelace c).natAbs : ℕ) := by exact_mod_cast h2
      omega
  refine ⟨key, fun h => ?_⟩
  rw [Bool.eq_false_iff]
  intro htrue
  exact absurd (key.mp htrue) (by rw [h]; exact lt_irrefl _)

/-- Witness for C3: a unit square's area equals the threshold of a 32×1 image
exactly and the contour is discarded. -/
theorem area_filter_strict_witness :
    contourArea [(0, 0), (1, 0), (1, 1), (0, 1)] = (((32 * 1) / 32 : ℕ) : ℚ) ∧
    is_contour_sufficiently_big [(0, 0), (1, 0), (1, 1), (0, 1)] 1 32 = false := by
  have hs : shoelace [(0, 0), (1, 0), (1, 1), (0, 1)] = 2 := by decide
  have ha : contourArea [(0, 0), (1, 0), (1, 1), (0, 1)] = (((32 * 1) / 32 : ℕ) : ℚ) := by
    rw [contourArea, hs]
    norm_num
  exact ⟨ha, (area_filter_strict [(0, 0), (1, 0), (1, 1), (0, 1)] 1 32).2 ha⟩

/-- C4: on a nonempty mask, the joint-panel splitter runs iff the nonzero
fraction of the mask is strictly below 0.3 and splitting was requested; in
every other case the page without background is the saturating subtraction of
the mask from the grayscale image. -/
theorem split_gating (cv : CV) (g mask : Image) (split : Bool)
    (hn : numel mask ≠ 0) :
    ((((countNonZero mask : ℚ) / (numel mask : ℚ)) < 3 / 10 ∧ split = true) →
      get_page_without_background cv g mask split =
        joint_panel_split_extraction cv g mask)
  ∧ ((¬ (((countNonZero mask : ℚ) / (numel mask : ℚ)) < 3 / 10) ∨ split = false) →
      get_page_without_background cv g mask split = some (cv2_subtract g mask)) := by
  have hpos : (0 : ℚ) < (numel mask : ℚ) := by
    exact_mod_cast Nat.pos_of_ne_zero hn
  have key : ((countNonZero mask : ℚ) / (numel mask : ℚ)) < 3 / 10 ↔
      10 * countNonZero mask < 3 * numel mask := by
    rw [div_lt_div_iff₀ hpos (by norm_num : (0:ℚ) < 10)]
    constructor
    · intro h
      have : (10 * countNonZero mask : ℚ) < 3 * numel mask := by linarith
      exact_mod_cast this
    · intro h
      have : (10 * countNonZero mask : ℚ) < 3 * numel mask := by exact_mod_cast h
      push_cast at this
      linarith
  constructor
  · intro h
    unfold get_page_without_background
    rw [if_neg hn, if_pos ⟨key.mp h.1, h.2⟩]
  · intro h
    unfold get_page_without_background
    rw [if_neg hn, if_neg]
    rcases h with h | h
    · intro hc
      exact h (key.mpr hc.1)
    · intro hc
      rw [h] at hc
      exact Bool.false_ne_true hc.2

/-- Witness for C4 at concrete data: on a 1×1 zero mask with splitting not
requested, the page is the saturating subtraction. -/
theorem split_gating_witness :
    get_page_without_background cvW1 [[0]] [[0]] false = some (cv2_subtract [[0]] [[0]]) :=
  (split_gating cvW1 [[0]] [[0]] false (by decide)).2 (Or.inr rfl)

/-- The border line `sorted(edges, key=np.var)[0]` picks: the first edge, in
the source's order, of minimal variance. -/
def leastVariedEdge (g : Image) : List Nat := (sortByB varLeB (edgesOf g)).headD []

theorem varDen_pos {l : List Nat} (h : l ≠ []) : (0 : ℤ) < varDen l := by
  have : 0 < l.length := List.length_pos.mpr h
  unfold varDen
  positivity

theorem varLeB_le {a b : List Nat} (ha : a ≠ []) (hb : b ≠ []) (h : varLeB a b = true) :
    npVar a ≤ npVar b := by
  unfold varLeB at h
  rw [decide_eq_true_eq] at h
  unfold npVar
  rw [div_le_div_iff₀ (by exact_mod_cast varDen_pos ha) (by exact_mod_cast varDen_pos hb)]
  exact_mod_cast h

theorem varLeB_total {a b : List Nat} (h : varLeB a b = false) : varLeB b a = true := by
  unfold varLeB at h ⊢
  rw [decide_eq_false_iff_not] at h
  rw [decide_eq_true_eq]
  exact le_of_lt (lt_of_not_le h)

theorem sortByB_nil_iff {α : Type} (le : α → α → Bool) (l : List α) :
    sortByB le l = [] ↔ l = [] := by
  constructor
  · intro h
    have := (sortByB_perm le l).length_eq
    rw [h] at this
    exact List.length_eq_zero.mp this.symm
  · intro h
    rw [h]
    rfl

theorem sortByB_head_min (l : List (List Nat)) (hne : ∀ e ∈ l, e ≠ []) :
    ∀ x ∈ l, npVar ((sortByB varLeB l).headD []) ≤ npVar x := by
  induction l with
  | nil => intro x hx; cases hx
  | cons a l' ih =>
    have hne' : ∀ e ∈ l', e ≠ [] := fun e he => hne e (List.mem_cons_of_mem a he)
    have ha : a ≠ [] := hne a (List.mem_cons_self a l')
    rcases hs : sortByB varLeB l' with _ | ⟨y, ys⟩
    · have hl' : l' = [] := (sortByB_nil_iff varLeB l').mp hs
      subst hl'
      intro x hx
      rcases List.mem_singleton.mp hx with rfl
      simp [sortByB, insertSorted]
    · have hy_mem : y ∈ l' := sortByB_mem varLeB l' y (hs ▸ List.mem_cons_self y ys)
      have hy : y ≠ [] := hne' y hy_mem
      have hy_min : ∀ x ∈ l', npVar y ≤ npVar x := by
        intro x hx
        have := ih hne' x hx
        rw [hs] at this
        simpa using this
      have hsort : sortByB varLeB (a :: l') = insertSorted varLeB a (y :: ys) := by
        simp [sortByB, hs]
      intro x hx
      by_cases hab : varLeB a y = true
      · have hhead : (sortByB varLeB (a :: l')).headD [] = a := by
          rw [hsort]
          simp [insertSorted, hab]
        rw [hhead]
        rcases List.mem_cons.mp hx with rfl | hx'
        · exact le_refl _
        · exact le_trans (varLeB_le ha hy hab) (hy_min x hx')
      · have hhead : (sortByB varLeB (a :: l')).headD [] = y := by
          rw [hsort]
          simp [insertSorted, hab]
        rw [hhead]
        rcases List.mem_cons.mp hx with rfl | hx'
        · exact varLeB_le hy ha (varLeB_total (Bool.eq_false_iff.mpr hab))
        · exact hy_min x hx'

/-- The spec sentence's reading of the minimum-intensity formula, for
comparison with the code: the maximum of the three values `min(edge)`,
`max(edge) - 25`, and `0`. -/
def min_intensity_claimed (e : List Nat) : ℤ :=
  max (max (listMinZ e) (listMaxZ e - 25)) 0

/-- C2 counterexample: on a uniform 2×2 image of intensity 250 the code's
`min_intensity` is 225 = `max(min(min(edge), max(edge)-25), 0)`, not the
claimed three-way maximum 250. -/
theorem background_intensity_claim_cex :
    (get_background_intensity_range img250 25).1 ≠
      min_intensity_claimed (leastVariedEdge img250) := by decide

/-- C2 amended: the border line used is one of minimal variance, the code's
`min_intensity` is `max(min(min(edge), max(edge) - 25), 0)` — the minimum of
`min(edge)` and `max(edge) - 25`, clamped below at 0 — and the binarisation
threshold actually used by `generate_background_mask` is
`max(min_intensity, 240)`. -/
theorem background_intensity_formula (cv : CV) (g : Image)
    (hne : ∀ e ∈ edgesOf g, e ≠ []) :
    (∀ e ∈ edgesOf g, npVar (leastVariedEdge g) ≤ npVar e)
  ∧ (get_background_intensity_range g 25).1 =
      max (min (listMinZ (leastVariedEdge g)) (listMaxZ (leastVariedEdge g) - 25)) 0
  ∧ generate_background_mask cv g =
      generate_background_mask_core cv
        (cv2_threshold g (max (get_background_intensity_range g 25).1 240)) :=
  ⟨sortByB_head_min (edgesOf g) hne, rfl, rfl⟩

/-- Witness for C2 at concrete data. -/
theorem background_intensity_formula_witness :
    npVar (leastVariedEdge img250) ≤ npVar [250, 250] ∧
    (get_background_intensity_range img250 25).1 =
      max (min (listMinZ (leastVariedEdge img250)) (listMaxZ (leastVariedEdge img250) - 25)) 0 := by
  have h := background_intensity_formula cvW1 img250 (by decide)
  exact ⟨h.1 [250, 250] (by decide), h.2.1⟩

/-- Whether a contour's bounding box covers at least 99% of the image width or
at least 99% of the image height (`w >= width * 0.99 or h >= height * 0.99`). -/
def bigBoxB (image : CImage) (c : Contour) : Bool :=
  let b := boundingRect c
  decide ((100 * b.2.2.1 ≥ 99 * width2 image) ∨ (100 * b.2.2.2 ≥ 99 * image.length))

/-- C6: with `accept_page_as_panel = false`, `extract_panels` discards exactly
the contours whose bounding box covers ≥ 99% of the image width or height
(equivalently, it behaves like the accepting variant on the pre-filtered
list); `threshold_extraction` is the one caller passing `false`, and the
primary path of `generate_panel_blocks` extracts with `true`. -/
theorem accept_page_flag_policy (cv : CV) (image : CImage) (mode : OutputMode)
    (fill : CPixel) :
    (∀ cs : List Contour,
      extract_panels cv image cs false mode fill =
        extract_panels cv image (cs.filter (fun c => ! bigBoxB image c)) true mode fill)
  ∧ (∀ g, threshold_extraction cv image g mode =
      extract_panels cv image (te_contours cv image g) false mode (0, 0, 0))
  ∧ (∀ split fb rtl, generate_panel_blocks cv image split fb mode MergeMode.none rtl =
      (pipeline_page cv image split).map (fun page =>
        get_fallback_panels cv image (cv.cvtGray image) fb
          (extract_panels cv image (sorted_filtered cv image page rtl) true mode (0, 0, 0))
          mode)) := by
  refine ⟨?_, fun g => rfl, ?_⟩
  · intro cs
    induction cs with
    | nil => rfl
    | cons c rest ih =>
      by_cases hbig : bigBoxB image c = true
      · have hcond : (100 * (boundingRect c).2.2.1 ≥ 99 * width2 image) ∨
            (100 * (boundingRect c).2.2.2 ≥ 99 * image.length) := by
          simpa [bigBoxB] using hbig
        simp [extract_panels, List.filter_cons, hbig, hcond, ih]
      · have hb : bigBoxB image c = false := Bool.eq_false_iff.mpr hbig
        have hcond : ¬ ((100 * (boundingRect c).2.2.1 ≥ 99 * width2 image) ∨
            (100 * (boundingRect c).2.2.2 ≥ 99 * image.length)) := by
          simpa [bigBoxB] using hb
        simp [extract_panels, List.filter_cons, hb, hcond, ih]
  · intro split fb rtl
    unfold generate_panel_blocks
    cases pipeline_page cv image split with
    | none => rfl
    | some page => rfl

/-- The all-zero 4×4 grayscale image / background mask. -/
def zeros4 : Image := List.replicate 4 (List.replicate 4 0)

/-- C10: at an all-zero background mask the coverage fraction is 0 < 0.3, so
requesting splitting invokes the joint-panel splitter; with no template
matches the post-extension pixel count `pixels_now` stays 0, the divisor
`4 * pixels_now` of the re-dilation size is zero, and the function fails
(Python `ZeroDivisionError`, modelled `none`) instead of returning a mask. -/
theorem joint_split_zero_mask_failure :
    joint_panel_split_extraction cvW1 zeros4 zeros4 = Option.none ∧
    get_page_without_background cvW1 zeros4 zeros4 true = Option.none := by decide

/-- C8: whenever the traditional pipeline completes its page and detects no
contours passing the area filter — in the primary path and in the fallback
threshold path — it returns an empty panel sequence (rather than failing),
in every merge mode; the AI path likewise returns an empty sequence on zero
detections. -/
theorem no_panels_empty_result (cv : CV) (image : CImage) (split fb : Bool)
    (mode : OutputMode) (merge : MergeMode) (rtl : Bool) (page : Image)
    (hpage : pipeline_page cv image split = some page)
    (h1 : filtered_contours cv image page = [])
    (h2 : te_contours cv image (cv.cvtGray image) = []) :
    generate_panel_blocks cv image split fb mode merge rtl = some []
  ∧ (∀ (im2 : CImage) (m2 : MergeMode) (r2 : Bool),
      generate_panel_blocks_by_ai im2 [] m2 r2 = []) := by
  constructor
  · have hsorted : sorted_filtered cv image page rtl = [] := by
      unfold sorted_filtered
      rw [h1]
      rfl
    have hgp : gpb_get_panels cv image (cv.cvtGray image) fb mode [] = [] := by
      unfold gpb_get_panels get_fallback_panels threshold_extraction
      rw [h2]
      cases fb <;> simp [extract_panels]
    unfold generate_panel_blocks
    rw [hpage]
    cases merge with
    | none => simp [hsorted, hgp]
    | horizontal => simp [hsorted, group_contours_horizontally, chunkByAdj]
    | vertical => simp [hsorted, group_contours_vertically, chunkByAdj]
  · intro im2 m2 r2
    unfold generate_panel_blocks_by_ai
    cases m2 <;> simp [chunkByAdj]

/-- Witness for C8 at concrete data: a run finding no contours returns `some []`. -/
theorem no_panels_empty_result_witness :
    generate_panel_blocks cvW8 img4 false true OutputMode.bounding MergeMode.none false =
      some [] ∧
    generate_panel_blocks_by_ai img4 [] MergeMode.vertical true = [] := by
  have h := no_panels_empty_result cvW8 img4 false true OutputMode.bounding MergeMode.none
    false zeros4 (by decide) (by decide) (by decide)
  exact ⟨h.1, h.2 img4 MergeMode.vertical true⟩

/-- C9 counterexample: the box the AI adapter builds from the (arbitrary)
model detection `(x1, y1, x2, y2) = (5, 5, 2, 3)` is `(5, 5, -3, -2)`: its
width is negative, contradicting "always non-negative". -/
theorem ai_box_negative_cex :
    (aiBox (5, 5, 2, 3)).2.2.1 = -3 ∧ ¬ (0 ≤ (aiBox (5, 5, 2, 3)).2.2.1) := by decide

theorem foldl_max_lt {β : Type} (f : β → Nat) (l : List β) (a B : Nat)
    (ha : a < B) (hl : ∀ q ∈ l, f q < B) :
    l.foldl (fun acc q => max acc (f q)) a < B := by
  induction l generalizing a with
  | nil => exact ha
  | cons q l ih =>
    exact ih (max a (f q)) (max_lt ha (hl q (List.mem_cons_self q l)))
      (fun q' hq' => hl q' (List.mem_cons_of_mem q hq'))

theorem foldl_min_le {β : Type} (f : β → Nat) (l : List β) (a : Nat) :
    l.foldl (fun acc q => min acc (f q)) a ≤ a := by
  induction l generalizing a with
  | nil => exact le_refl a
  | cons q l ih => exact le_trans (ih (min a (f q))) (min_le_left a (f q))

theorem le_foldl_max {β : Type} (f : β → Nat) (l : List β) (a : Nat) :
    a ≤ l.foldl (fun acc q => max acc (f q)) a := by
  induction l generalizing a with
  | nil => exact le_refl a
  | cons q l ih => exact le_trans (le_max_left a (f q)) (ih (max a (f q)))

/-- C9 amended: boxes computed by `cv2.boundingRect` from contours whose
points lie inside the image are non-negative and in bounds; the AI adapter's
box `(x1, y1, x2 - x1, y2 - y1)` is non-negative and in bounds only under the
well-formedness conditions `0 ≤ x1 ≤ x2 ≤ W`, `0 ≤ y1 ≤ y2 ≤ H` on the
detection (the adapter itself does not clamp). -/
theorem bounding_box_invariants :
    (∀ (c : Contour) (W H : Nat), c ≠ [] → (∀ p ∈ c, p.1 < W ∧ p.2 < H) →
      (boundingRect c).1 + (boundingRect c).2.2.1 ≤ W ∧
      (boundingRect c).2.1 + (boundingRect c).2.2.2 ≤ H)
  ∧ (∀ x1 y1 x2 y2 W H : ℤ, 0 ≤ x1 → x1 ≤ x2 → x2 ≤ W → 0 ≤ y1 → y1 ≤ y2 → y2 ≤ H →
      0 ≤ (aiBox (x1, y1, x2, y2)).1 ∧ 0 ≤ (aiBox (x1, y1, x2, y2)).2.1 ∧
      0 ≤ (aiBox (x1, y1, x2, y2)).2.2.1 ∧ 0 ≤ (aiBox (x1, y1, x2, y2)).2.2.2 ∧
      (aiBox (x1, y1, x2, y2)).1 + (aiBox (x1, y1, x2, y2)).2.2.1 ≤ W ∧
      (aiBox (x1, y1, x2, y2)).2.1 + (aiBox (x1, y1, x2, y2)).2.2.2 ≤ H) := by
  constructor
  · intro c W H hc hp
    match c with
    | p :: ps =>
      have hW : ps.foldl (fun acc q => max acc q.1) p.1 < W :=
        foldl_max_lt (fun q => q.1) ps p.1 W (hp p (List.mem_cons_self p ps)).1
          (fun q hq => (hp q (List.mem_cons_of_mem p hq)).1)
      have hH : ps.foldl (fun acc q => max acc q.2) p.2 < H :=
        foldl_max_lt (fun q => q.2) ps p.2 H (hp p (List.mem_cons_self p ps)).2
          (fun q hq => (hp q (List.mem_cons_of_mem p hq)).2)
      have hWm : ps.foldl (fun acc q => min acc q.1) p.1 ≤
          ps.foldl (fun acc q => max acc q.1) p.1 :=
        le_trans (foldl_min_le (fun q => q.1) ps p.1) (le_foldl_max (fun q => q.1) ps p.1)
      have hHm : ps.foldl (fun acc q => min acc q.2) p.2 ≤
          ps.foldl (fun acc q => max acc q.2) p.2 :=
        le_trans (foldl_min_le (fun q => q.2) ps p.2) (le_foldl_max (fun q => q.2) ps p.2)
      simp only [boundingRect]
      omega
  · intro x1 y1 x2 y2 W H h1 h2 h3 h4 h5 h6
    simp only [aiBox]
    exact ⟨h1, h4, by omega, by omega, by omega, by omega⟩

/-- Witness for C9 at concrete data. -/
theorem bounding_box_invariants_witness :
    ((boundingRect [(0, 0), (1, 1)]).1 + (boundingRect [(0, 0), (1, 1)]).2.2.1 ≤ 2 ∧
     (boundingRect [(0, 0), (1, 1)]).2.1 + (boundingRect [(0, 0), (1, 1)]).2.2.2 ≤ 2) ∧
    (0 ≤ (aiBox (1, 1, 3, 3)).1 ∧ 0 ≤ (aiBox (1, 1, 3, 3)).2.1 ∧
     0 ≤ (aiBox (1, 1, 3, 3)).2.2.1 ∧ 0 ≤ (aiBox (1, 1, 3, 3)).2.2.2 ∧
     (aiBox (1, 1, 3, 3)).1 + (aiBox (1, 1, 3, 3)).2.2.1 ≤ 4 ∧
     (aiBox (1, 1, 3, 3)).2.1 + (aiBox (1, 1, 3, 3)).2.2.2 ≤ 4) :=
  ⟨bounding_box_invariants.1 [(0, 0), (1, 1)] 2 2 (by decide) (by decide),
   bounding_box_invariants.2 1 1 3 3 4 4 (by decide) (by decide) (by decide)
     (by decide) (by decide) (by decide)⟩

/-! Channel-level facts for the masked blend. -/

theorem bandC_white (p : CPixel) (hp : p.1 ≤ 255 ∧ p.2.1 ≤ 255 ∧ p.2.2 ≤ 255) :
    bandC p (255, 255, 255) = p := by
  obtain ⟨a, b, c⟩ := p
  simp only [bandC]
  rw [land255_of_le a hp.1, land255_of_le b hp.2.1, land255_of_le c hp.2.2]

theorem bandC_white_left (p : CPixel) (hp : p.1 ≤ 255 ∧ p.2.1 ≤ 255 ∧ p.2.2 ≤ 255) :
    bandC (255, 255, 255) p = p := by
  obtain ⟨a, b, c⟩ := p
  simp only [bandC]
  rw [land255_left a hp.1, land255_left b hp.2.1, land255_left c hp.2.2]

theorem bandC_black (p : CPixel) : bandC p (0, 0, 0) = (0, 0, 0) := by
  obtain ⟨a, b, c⟩ := p
  simp only [bandC]
  rw [land_zero_right, land_zero_right, land_zero_right]

theorem bandC_black_left (p : CPixel) : bandC (0, 0, 0) p = (0, 0, 0) := by
  obtain ⟨a, b, c⟩ := p
  simp only [bandC]
  rw [land_zero_left, land_zero_left, land_zero_left]

theorem borC_zero_left (p : CPixel) : borC (0, 0, 0) p = p := by
  obtain ⟨a, b, c⟩ := p
  simp only [borC]
  rw [lor_zero_left, lor_zero_left, lor_zero_left]

theorem borC_zero_right (p : CPixel) : borC p (0, 0, 0) = p := by
  obtain ⟨a, b, c⟩ := p
  simp only [borC]
  rw [lor_zero_right, lor_zero_right, lor_zero_right]

theorem getD_map_range {α : Type} (n i : Nat) (f : Nat → α) (d : α) (h : i < n) :
    ((List.range n).map f).getD i d = f i := by
  rw [List.getD_eq_getElem _ _ (by simpa using h)]
  simp

/-- Row `r` of `draw_contour_mask` has the length of the image's row `r`. -/
theorem draw_contour_mask_row {cv : CV} {image : CImage} {c : Contour} {r : Nat}
    (hr : r < image.length) :
    (draw_contour_mask cv image c).getD r [] =
      (List.range ((image.getD r []).length)).map
        (fun j => if cv.contourRegion c r j then ((255, 255, 255) : CPixel) else (0, 0, 0)) := by
  unfold draw_contour_mask
  exact getD_map_range image.length r _ [] hr

/-- The pixel of `draw_contour_mask` at an in-range position. -/
theorem draw_contour_mask_pget {cv : CV} {image : CImage} {c : Contour} {r j : Nat}
    (hr : r < image.length) (hj : j < (image.getD r []).length) :
    pget (draw_contour_mask cv image c) r j (0, 0, 0) =
      if cv.contourRegion c r j then (255, 255, 255) else (0, 0, 0) := by
  unfold pget
  rw [draw_contour_mask_row hr, getD_map_range _ _ _ _ hj]

theorem draw_contour_mask_length (cv : CV) (image : CImage) (c : Contour) :
    (draw_contour_mask cv image c).length = image.length := by
  simp [draw_contour_mask]

theorem getD_mem {α : Type} {l : List α} {i : Nat} {d : α} (h : i < l.length) :
    l.getD i d ∈ l := by
  rw [List.getD_eq_getElem _ _ h]
  exact List.getElem_mem h

theorem crop2_length {α : Type} (img : List (List α)) (y h x w : Nat) :
    (crop2 img y h x w).length = min h (img.length - y) := by
  simp [crop2]

/-- The pixel content of a masked-mode panel: source pixels on the contour's
region, the fill color outside it. -/
theorem extract_masked_panel_pixel (cv : CV) (image : CImage) (c : Contour)
    (fill : CPixel) (x y w h i j : Nat)
    (hpix : ∀ r ∈ image, ∀ p ∈ r, p.1 ≤ 255 ∧ p.2.1 ≤ 255 ∧ p.2.2 ≤ 255)
    (hfill : fill.1 ≤ 255 ∧ fill.2.1 ≤ 255 ∧ fill.2.2 ≤ 255)
    (hi : i < (extract_masked_panel cv image c fill x y w h).length)
    (hj : j < ((extract_masked_panel cv image c fill x y w h).getD i []).length) :
    pget (extract_masked_panel cv image c fill x y w h) i j (0, 0, 0) =
      if cv.contourRegion c (y + i) (x + j) then pget image (y + i) (x + j) (0, 0, 0)
      else fill := by
  have hP : extract_masked_panel cv image c fill x y w h =
      List.zipWith (List.zipWith (fun mp fp => borC (bandC (bnotC mp) fill) fp))
        (crop2 (draw_contour_mask cv image c) y h x w)
        (crop2 (pz2 bandC image (draw_contour_mask cv image c)) y h x w) := rfl
  have hmlen : (draw_contour_mask cv image c).length = image.length :=
    draw_contour_mask_length cv image c
  have hmaskedlen : (pz2 bandC image (draw_contour_mask cv image c)).length = image.length := by
    unfold pz2
    rw [List.length_zipWith, hmlen, Nat.min_self]
  rw [hP] at hi hj ⊢
  rw [List.length_zipWith, crop2_length, crop2_length, hmlen, hmaskedlen, Nat.min_self] at hi
  have hih : i < h := lt_of_lt_of_le hi (min_le_left _ _)
  have hyi : y + i < image.length := by
    have := lt_of_lt_of_le hi (min_le_right _ _)
    omega
  have hcm : i < (crop2 (draw_contour_mask cv image c) y h x w).length := by
    rw [crop2_length, hmlen]
    omega
  have hcf : i < (crop2 (pz2 bandC image (draw_contour_mask cv image c)) y h x w).length := by
    rw [crop2_length, hmaskedlen]
    omega
  have hrowi : (List.zipWith (List.zipWith (fun mp fp => borC (bandC (bnotC mp) fill) fp))
      (crop2 (draw_contour_mask cv image c) y h x w)
      (crop2 (pz2 bandC image (draw_contour_mask cv image c)) y h x w)).getD i [] =
      List.zipWith (fun mp fp => borC (bandC (bnotC mp) fill) fp)
        ((crop2 (draw_contour_mask cv image c) y h x w).getD i [])
        ((crop2 (pz2 bandC image (draw_contour_mask cv image c)) y h x w).getD i []) :=
    getD_zipWith _ _ _ i [] [] [] hcm hcf
  rw [hrowi] at hj
  rw [crop2_getD_row _ y h x w i hih, crop2_getD_row _ y h x w i hih] at hj hrowi
  have hmrowlen : ((draw_contour_mask cv image c).getD (y + i) []).length =
      ((image.getD (y + i) []).length) := by
    rw [draw_contour_mask_row hyi]
    simp
  have hmaskedrow : (pz2 bandC image (draw_contour_mask cv image c)).getD (y + i) [] =
      List.zipWith bandC (image.getD (y + i) []) ((draw_contour_mask cv image c).getD (y + i) []) :=
    getD_zipWith _ _ _ (y + i) [] [] [] hyi (by omega)
  rw [hmaskedrow] at hj hrowi
  rw [List.length_zipWith, List.length_take, List.length_take, List.length_drop,
    List.length_drop, List.length_zipWith, hmrowlen, Nat.min_self] at hj
  have hjw : j < w := by omega
  have hxj : x + j < (image.getD (y + i) []).length := by omega
  have hjm : j < (((((draw_contour_mask cv image c).getD (y + i) []).drop x).take w)).length := by
    rw [List.length_take, List.length_drop, hmrowlen]
    omega
  have hjf : j < (((List.zipWith bandC (image.getD (y + i) [])
      ((draw_contour_mask cv image c).getD (y + i) [])).drop x).take w).length := by
    rw [List.length_take, List.length_drop, List.length_zipWith, hmrowlen, Nat.min_self]
    omega
  unfold pget
  rw [hrowi]
  rw [getD_zipWith _ _ _ j (0, 0, 0) (0, 0, 0) (0, 0, 0) hjm hjf]
  rw [getD_dropTake _ x w j (0, 0, 0) hjw, getD_dropTake _ x w j (0, 0, 0) hjw]
  rw [getD_zipWith bandC _ _ (x + j) (0, 0, 0) (0, 0, 0) (0, 0, 0) hxj (by omega)]
  have hmaskpx : ((draw_contour_mask cv image c).getD (y + i) []).getD (x + j) (0, 0, 0) =
      if cv.contourRegion c (y + i) (x + j) then (255, 255, 255) else (0, 0, 0) :=
    draw_contour_mask_pget hyi hxj
  rw [hmaskpx]
  have himg : ((image.getD (y + i) []).getD (x + j) (0, 0, 0)).1 ≤ 255 ∧
      ((image.getD (y + i) []).getD (x + j) (0, 0, 0)).2.1 ≤ 255 ∧
      ((image.getD (y + i) []).getD (x + j) (0, 0, 0)).2.2 ≤ 255 :=
    hpix _ (getD_mem hyi) _ (getD_mem hxj)
  by_cases hreg : cv.contourRegion c (y + i) (x + j) = true
  · rw [if_pos hreg, if_pos hreg]
    rw [bandC_white _ himg]
    have : bnotC (255, 255, 255) = ((0, 0, 0) : CPixel) := rfl
    rw [this, bandC_black_left, borC_zero_left]
  · rw [if_neg hreg, if_neg hreg]
    rw [bandC_black]
    have : bnotC (0, 0, 0) = ((255, 255, 255) : CPixel) := rfl
    rw [this, bandC_white_left _ hfill, borC_zero_right]

/-- C5: for a retained contour with bounding box `(x, y, w, h)`, bounding-mode
extraction is exactly the plain crop `image[y:y+h, x:x+w]` whatever the
contour's shape, and masked-mode extraction is the bounding-box crop whose
pixels on the contour's region equal the source image and whose pixels off
the region equal `fill_in_color`. -/
theorem panel_extraction_modes (cv : CV) (image : CImage) (contour : Contour)
    (fill : CPixel) (x y w h : Nat)
    (hbr : boundingRect contour = (x, y, w, h))
    (hpix : ∀ r ∈ image, ∀ p ∈ r, p.1 ≤ 255 ∧ p.2.1 ≤ 255 ∧ p.2.2 ≤ 255)
    (hfill : fill.1 ≤ 255 ∧ fill.2.1 ≤ 255 ∧ fill.2.2 ≤ 255) :
    (extract_panels cv image [contour] true OutputMode.bounding fill =
      [crop2 image y h x w])
  ∧ (extract_panels cv image [contour] true OutputMode.masked fill =
      [extract_masked_panel cv image contour fill x y w h])
  ∧ (∀ i j, i < (extract_masked_panel cv image contour fill x y w h).length →
      j < ((extract_masked_panel cv image contour fill x y w h).getD i []).length →
      pget (extract_masked_panel cv image contour fill x y w h) i j (0, 0, 0) =
        if cv.contourRegion contour (y + i) (x + j)
        then pget image (y + i) (x + j) (0, 0, 0)
        else fill) := by
  refine ⟨?_, ?_, ?_⟩
  · simp [extract_panels, hbr]
  · simp [extract_panels, hbr]
  · intro i j hi hj
    exact extract_masked_panel_pixel cv image contour fill x y w h i j hpix hfill hi hj

/-- Witness for C5 at concrete data: for the contour whose region is the
single pixel (0,0) of an 8×8 image, the masked panel keeps the source pixel
there and paints the fill color at (0,1); bounding mode is the plain crop. -/
theorem panel_extraction_modes_witness :
    (extract_panels cvW1 img8 [[(0, 0), (1, 1)]] true OutputMode.bounding (1, 2, 3) =
      [crop2 img8 0 2 0 2]) ∧
    pget (extract_masked_panel cvW1 img8 [(0, 0), (1, 1)] (1, 2, 3) 0 0 2 2) 0 1 (0, 0, 0) =
      (if cvW1.contourRegion [(0, 0), (1, 1)] (0 + 0) (0 + 1)
       then pget img8 (0 + 0) (0 + 1) (0, 0, 0) else (1, 2, 3)) := by
  have h := panel_extraction_modes cvW1 img8 [(0, 0), (1, 1)] (1, 2, 3) 0 0 2 2
    (by decide) (by decide) (by decide)
  exact ⟨h.1, h.2.2 0 1 (by decide) (by decide)⟩

/-- C7 counterexample: under vertical merge, two overlapping page-high panels
are grouped and concatenated, producing a single panel of height 8 from a 4-row
image — a returned panel's height exceeds the source image's height. -/
theorem merge_dims_cex :
    (generate_panel_blocks cvW7 img4 false false OutputMode.bounding MergeMode.vertical
        false).map (fun ps => ps.map List.length) = some [8] ∧
    img4.length = 4 := by decide

theorem mem_zipWith {α β γ : Type} {f : α → β → γ} {l1 : List α} {l2 : List β} {c : γ}
    (h : c ∈ List.zipWith f l1 l2) : ∃ a b, a ∈ l1 ∧ b ∈ l2 ∧ c = f a b := by
  induction l1 generalizing l2 with
  | nil => simp at h
  | cons a l1 ih =>
    cases l2 with
    | nil => simp at h
    | cons b l2 =>
      rcases List.mem_cons.mp h with rfl | h'
      · exact ⟨a, b, List.mem_cons_self a l1, List.mem_cons_self b l2, rfl⟩
      · rcases ih h' with ⟨a', b', ha', hb', rfl⟩
        exact ⟨a', b', List.mem_cons_of_mem a ha', List.mem_cons_of_mem b hb', rfl⟩

theorem crop2_mem {α : Type} {r : List α} {img : List (List α)} {y h x w : Nat}
    (hr : r ∈ crop2 img y h x w) : ∃ r0 ∈ img, r = (r0.drop x).take w := by
  unfold crop2 at hr
  rcases List.mem_map.mp hr with ⟨r0, hr0, rfl⟩
  exact ⟨r0, List.mem_of_mem_drop (List.mem_of_mem_take hr0), rfl⟩

/-- Dimension bound for a bounding-mode crop. -/
theorem crop2_dims {α : Type} (img : List (List α)) (y h x w : Nat)
    (hwf : ∀ r ∈ img, r.length = width2 img) :
    (crop2 img y h x w).length ≤ img.length ∧
    ∀ r ∈ crop2 img y h x w, r.length ≤ width2 img := by
  constructor
  · rw [crop2_length]
    omega
  · intro r hr
    rcases crop2_mem hr with ⟨r0, hr0, rfl⟩
    calc ((r0.drop x).take w).length ≤ (r0.drop x).length := by
          rw [List.length_take]; omega
      _ ≤ r0.length := by rw [List.length_drop]; omega
      _ = width2 img := hwf r0 hr0

/-- Dimension bound for a masked-mode panel. -/
theorem extract_masked_panel_dims (cv : CV) (image : CImage) (c : Contour)
    (fill : CPixel) (x y w h : Nat)
    (hwf : ∀ r ∈ image, r.length = width2 image) :
    (extract_masked_panel cv image c fill x y w h).length ≤ image.length ∧
    ∀ r ∈ extract_masked_panel cv image c fill x y w h, r.length ≤ width2 image := by
  have hP : extract_masked_panel cv image c fill x y w h =
      List.zipWith (List.zipWith (fun mp fp => borC (bandC (bnotC mp) fill) fp))
        (crop2 (draw_contour_mask cv image c) y h x w)
        (crop2 (pz2 bandC image (draw_contour_mask cv image c)) y h x w) := rfl
  have hmaskedlen : (pz2 bandC image (draw_contour_mask cv image c)).length = image.length := by
    unfold pz2
    rw [List.length_zipWith, draw_contour_mask_length, Nat.min_self]
  constructor
  · rw [hP, List.length_zipWith, crop2_length, crop2_length, hmaskedlen]
    omega
  · intro r hr
    rw [hP] at hr
    rcases mem_zipWith hr with ⟨a, b, _, hb, rfl⟩
    rcases crop2_mem hb with ⟨b0, hb0, rfl⟩
    rcases mem_zipWith hb0 with ⟨ra, rb, hra, _, rfl⟩
    calc (List.zipWith _ a ((((List.zipWith bandC ra rb).drop x).take w))).length
        ≤ (((List.zipWith bandC ra rb).drop x).take w).length := by
          rw [List.length_zipWith]; omega
      _ ≤ (List.zipWith bandC ra rb).length := by
          rw [List.length_take, List.length_drop]; omega
      _ ≤ ra.length := by rw [List.length_zipWith]; omega
      _ = width2 image := hwf ra hra

/-- Every panel produced by `extract_panels` fits inside the source image. -/
theorem extract_panels_dims (cv : CV) (image : CImage) (cs : List Contour)
    (accept : Bool) (mode : OutputMode) (fill : CPixel)
    (hwf : ∀ r ∈ image, r.length = width2 image) :
    ∀ p ∈ extract_panels cv image cs accept mode fill,
      p.length ≤ image.length ∧ ∀ r ∈ p, r.length ≤ width2 image := by
  induction cs with
  | nil => intro p hp; simp [extract_panels] at hp
  | cons c rest ih =>
    intro p hp
    simp only [extract_panels] at hp
    split at hp
    · exact ih p hp
    · rcases List.mem_cons.mp hp with rfl | hp'
      · cases mode with
        | bounding => exact crop2_dims image _ _ _ _ hwf
        | masked => exact extract_masked_panel_dims cv image c fill _ _ _ _ hwf
      · exact ih p hp'

theorem extract_panels_length_le (cv : CV) (image : CImage) (cs : List Contour)
    (accept : Bool) (mode : OutputMode) (fill : CPixel) :
    (extract_panels cv image cs accept mode fill).length ≤ cs.length := by
  induction cs with
  | nil => simp [extract_panels]
  | cons c rest ih =>
    simp only [extract_panels]
    split
    · exact Nat.le_succ_of_le ih
    · simpa using Nat.succ_le_succ ih

theorem get_fallback_panels_cases (cv : CV) (image : CImage) (g : Image)
    (fb : Bool) (panels : List CImage) (mode : OutputMode) :
    get_fallback_panels cv image g fb panels mode = panels ∨
    get_fallback_panels cv image g fb panels mode =
      threshold_extraction cv image g mode := by
  simp only [get_fallback_panels]
  split
  · split
    · exact Or.inr rfl
    · exact Or.inl rfl
  · exact Or.inl rfl

theorem sorted_filtered_length (cv : CV) (image : CImage) (page : Image) (rtl : Bool) :
    (sorted_filtered cv image page rtl).length = (filtered_contours cv image page).length := by
  simp only [sorted_filtered]
  split
  · rfl
  · exact sortByB_length _ _

/-- C7 amended: when the pipeline completes, the number of returned panels is
bounded by the number of contours passing the area filter (of the primary
path, or the fallback threshold path when its result was adopted) in every
merge mode, and with `merge = none` — the only mode that returns plain
bounding/masked crops — every panel's height and width are bounded by the
source image's; under merge modes, concatenation may exceed the source
dimension along the merge axis. -/
theorem generate_panel_blocks_bounds (cv : CV) (image : CImage) (split fb : Bool)
    (mode : OutputMode) (rtl : Bool) (page : Image) (panels : List CImage)
    (hwf : ∀ r ∈ image, r.length = width2 image)
    (hpage : pipeline_page cv image split = some page) :
    (generate_panel_blocks cv image split fb mode MergeMode.none rtl = some panels →
      panels.length ≤
        max (filtered_contours cv image page).length
          (te_contours cv image (cv.cvtGray image)).length ∧
      ∀ p ∈ panels, p.length ≤ image.length ∧ ∀ r ∈ p, r.length ≤ width2 image)
  ∧ (∀ merge, generate_panel_blocks cv image split fb mode merge rtl = some panels →
      panels.length ≤
        max (filtered_contours cv image page).length
          (te_contours cv image (cv.cvtGray image)).length) := by
  have key : ∀ cs : List Contour,
      (gpb_get_panels cv image (cv.cvtGray image) fb mode cs).length ≤
        max cs.length (te_contours cv image (cv.cvtGray image)).length ∧
      ∀ p ∈ gpb_get_panels cv image (cv.cvtGray image) fb mode cs,
        p.length ≤ image.length ∧ ∀ r ∈ p, r.length ≤ width2 image := by
    intro cs
    unfold gpb_get_panels
    rcases get_fallback_panels_cases cv image (cv.cvtGray image) fb
        (extract_panels cv image cs true mode (0, 0, 0)) mode with heq | heq
    · rw [heq]
      refine ⟨le_trans (extract_panels_length_le cv image cs true mode (0, 0, 0))
        (le_max_left _ _), ?_⟩
      exact extract_panels_dims cv image cs true mode (0, 0, 0) hwf
    · rw [heq]
      unfold threshold_extraction
      refine ⟨le_trans (extract_panels_length_le cv image _ false mode (0, 0, 0))
        (le_max_right _ _), ?_⟩
      exact extract_panels_dims cv image _ false mode (0, 0, 0) hwf
  have hsortlen := sorted_filtered_length cv image page rtl
  constructor
  · intro hrun
    unfold generate_panel_blocks at hrun
    rw [hpage] at hrun
    have hpanels : panels = gpb_get_panels cv image (cv.cvtGray image) fb mode
        (sorted_filtered cv image page rtl) := by
      exact (Option.some_inj.mp hrun).symm
    rw [hpanels]
    refine ⟨le_trans (key _).1 ?_, (key _).2⟩
    rw [hsortlen]
  · intro merge hrun
    unfold generate_panel_blocks at hrun
    rw [hpage] at hrun
    cases merge with
    | none =>
      have hpanels : panels = gpb_get_panels cv image (cv.cvtGray image) fb mode
          (sorted_filtered cv image page rtl) := (Option.some_inj.mp hrun).symm
      rw [hpanels]
      exact le_trans (key _).1 (by rw [hsortlen])
    | horizontal =>
      have hpanels : panels = (group_contours_horizontally
          (sorted_filtered cv image page rtl)).map
            (fun grp => adaptive_hconcat
              (gpb_get_panels cv image (cv.cvtGray image) fb mode grp)) :=
        (Option.some_inj.mp hrun).symm
      rw [hpanels, List.length_map]
      calc (group_contours_horizontally (sorted_filtered cv image page rtl)).length
          ≤ (sorted_filtered cv image page rtl).length :=
            chunkByAdj_length_le yOverlapB _
        _ = (filtered_contours cv image page).length := hsortlen
        _ ≤ _ := le_max_left _ _
    | vertical =>
      have hpanels : panels = (group_contours_vertically
          (sorted_filtered cv image page rtl)).map
            (fun grp => adaptive_vconcat
              (gpb_get_panels cv image (cv.cvtGray image) fb mode grp)) :=
        (Option.some_inj.mp hrun).symm
      rw [hpanels, List.length_map]
      calc (group_contours_vertically (sorted_filtered cv image page rtl)).length
          ≤ (sorted_filtered cv image page rtl).length :=
            chunkByAdj_length_le xOverlapB _
        _ = (filtered_contours cv image page).length := hsortlen
        _ ≤ _ := le_max_left _ _

/-- The page the concrete pipeline run of the witness produces. -/
def page8 : Image := List.replicate 8 (List.replicate 8 0)

/-- The two panels the concrete pipeline run of the witness produces. -/
def panels8 : List CImage := [crop2 img8 0 4 0 4, crop2 img8 0 4 4 4]

/-- Witness for C7 at concrete data. -/
theorem generate_panel_blocks_bounds_witness :
    panels8.length ≤
      max (filtered_contours cvW1 img8 page8).length
        (te_contours cvW1 img8 (cvW1.cvtGray img8)).length ∧
    ∀ p ∈ panels8, p.length ≤ img8.length ∧ ∀ r ∈ p, r.length ≤ width2 img8 :=
  (generate_panel_blocks_bounds cvW1 img8 false false OutputMode.bounding false page8
    panels8 (by decide) (by decide)).1 (by decide)
